import Mathlib

/-!
Shallow embedding of the mjdi Standard MIDI File codec (Rust) in Lean 4.

Conventions of the embedding:
* Machine integers (`u8`, `u16`, `u32`) are `Nat`s; wrapping or masking
  operations of the source are rendered arithmetically (`x & 0x7F` = `x % 128`,
  `x >> 7` = `x / 128`, `x & 0x80 > 0` = `x / 128 % 2 = 1`, big-endian byte
  extraction via `/ 256` and `% 256`), which agrees with the source on the
  full `Nat` range of the corresponding bit masks.
* Byte buffers (`&[u8]` slices) are `List Nat`; slicing `&b[k..]` is
  `List.drop k`.
* Fallible Rust functions returning `Result` are rendered with `Except`;
  functions whose body can reach a `todo!()` or a failing `assert!` are
  rendered with `PResult`, whose `panicked` value marks the panic.
* Rust `while` loops are rendered as recursive functions; the track event
  loop, whose termination is a verified property rather than a structural
  fact, takes an explicit fuel argument (`parseEventsFuel`), instantiated by
  its caller with the payload length.
-/

namespace Mjdi

/-- Result of a Rust function that can return a value, return a typed error,
or panic (`todo!()` / failed `assert!`). `panicked` models the panic. -/
inductive PResult (ε : Type) (α : Type) where
  | ok : α → PResult ε α
  | err : ε → PResult ε α
  | panicked : PResult ε α
deriving DecidableEq, Repr

namespace PResult

/-- Map the success value, propagating errors and panics. -/
def map {ε α β : Type} (f : α → β) : PResult ε α → PResult ε β
  | .ok a => .ok (f a)
  | .err e => .err e
  | .panicked => .panicked

end PResult

/-- Decidable equality for `Except`, used to evaluate parse results. -/
instance {e a : Type} [DecidableEq e] [DecidableEq a] : DecidableEq (Except e a) := fun x y =>
  match x, y with
  | .ok v, .ok w =>
    match decEq v w with
    | isTrue h => isTrue (by rw [h])
    | isFalse h => isFalse (by intro hc; cases hc; exact h rfl)
  | .error v, .error w =>
    match decEq v w with
    | isTrue h => isTrue (by rw [h])
    | isFalse h => isFalse (by intro hc; cases hc; exact h rfl)
  | .ok _, .error _ => isFalse (by intro hc; cases hc)
  | .error _, .ok _ => isFalse (by intro hc; cases hc)

/-! ## src/vlq.rs — variable length quantities -/

/-- `MAX_REPRESENTABLE` from src/vlq.rs. -/
def MAX_REPRESENTABLE : Nat := 0x0FFFFFFF

/-- `VLQError` from src/vlq.rs (`OverMaxSize`) together with the
`NotEnoughBytes` case used by the `Parse` impl in src/chunk/track/chunk.rs. -/
inductive VlqError where
  | OverMaxSize
  | NotEnoughBytes
deriving DecidableEq, Repr

/-- `Vlq` from src/vlq.rs: the `[u8; 4]` backing array (little-endian 7-bit
groups, padded with zeros) plus the number of groups in use. -/
structure Vlq where
  bytes : List Nat
  size : Nat
deriving DecidableEq, Repr

/-- The `while n > 0x7F` loop body of `Vlq::try_from(u32)`: emits the 7-bit
groups of `n` little-endian, every emitted byte carrying the `0x80`
continuation flag (the final unmasking of `bytes[0]` happens in `vlqStored`).
The loop runs at most `fuel + 1` times; `fuel = 4` covers every `u32` that
passes the `MAX_REPRESENTABLE` guard. -/
def vlqStoredGo : Nat → Nat → List Nat
  | 0, n => [128 + n % 128]
  | fuel + 1, n =>
    if 127 < n then (n % 128 + 128) :: vlqStoredGo fuel (n / 128)
    else [128 + n % 128]

/-- The byte groups stored by `Vlq::try_from(u32)` after the trailing
`bytes[0] &= 0x7F` (the first stored byte is the least-significant group and
carries no continuation flag). -/
def vlqStored (n : Nat) : List Nat :=
  match vlqStoredGo 4 n with
  | [] => []
  | b :: rest => b % 128 :: rest

/-- The successful branch of `Vlq::try_from(u32)`: the backing array padded
to four bytes with zeros, plus the used size. -/
def vlqOfNat (n : Nat) : Vlq :=
  ⟨vlqStored n ++ List.replicate (4 - (vlqStored n).length) 0, (vlqStored n).length⟩

/-- `Vlq::try_from(u32)` from src/vlq.rs. -/
def Vlq.tryFrom (n : Nat) : Except VlqError Vlq :=
  if MAX_REPRESENTABLE < n then .error .OverMaxSize
  else .ok (vlqOfNat n)

/-- `IntoIterator for Vlq` from src/vlq.rs: the used prefix of the backing
array, reversed (most-significant group first). -/
def Vlq.toBytes (v : Vlq) : List Nat :=
  (v.bytes.take v.size).reverse

/-- The accumulation step shared by `From<Vlq> for u32` and the parse loop:
`result <<= 7; result |= byte & 0x7F` (the `u32` shift wraps at 2^32). -/
def u32Accum (result byte : Nat) : Nat :=
  result * 128 % 4294967296 + byte % 128

/-- `From<Vlq> for u32` from src/vlq.rs: the accumulation step folded over
the iterated bytes. -/
def Vlq.get (v : Vlq) : Nat :=
  v.toBytes.foldl u32Accum 0

/-- The `loop` of `<Vlq as Parse>::parse` in src/chunk/track/chunk.rs;
`i` counts consumed bytes, a continuation flag on the 4th byte is ignored. -/
def vlqParseLoop : List Nat → Nat → Nat → Except VlqError (Nat × List Nat)
  | [], _, _ => .error .NotEnoughBytes
  | b :: rest, result, i =>
    if i + 1 < 4 ∧ b / 128 % 2 = 1 then vlqParseLoop rest (u32Accum result b) (i + 1)
    else .ok (u32Accum result b, rest)

/-- `<Vlq as Parse>::parse` from src/chunk/track/chunk.rs. -/
def Vlq.parse (bytes : List Nat) : Except VlqError (Vlq × List Nat) :=
  if bytes.isEmpty then .error .NotEnoughBytes
  else
    match vlqParseLoop bytes 0 0 with
    | .error e => .error e
    | .ok (result, remainder) =>
      match Vlq.tryFrom result with
      | .error e => .error e
      | .ok v => .ok (v, remainder)

/-- Reinterpret a `u8` as an `i8` (two's complement), as in `byte as i8`. -/
def i8OfU8 (b : Nat) : Int :=
  if b % 256 < 128 then (b % 256 : Int) else (b % 256 : Int) - 256

/-! ## src/chunk/track/chunk.rs — the track chunk and event model -/

namespace Track

/-- `U7Error` from src/chunk/track/chunk.rs. -/
inductive U7Error where
  | Overflow
deriving DecidableEq, Repr

/-- `U7` from src/chunk/track/chunk.rs: a `u8` wrapper validated to `≤ 0x7F`
by its `TryFrom` constructor. -/
structure U7 where
  val : Nat
deriving DecidableEq, Repr

/-- `TryFrom<u8> for U7`. -/
def U7.tryFrom (value : Nat) : Except U7Error U7 :=
  if value ≤ 0x7f then .ok ⟨value⟩ else .error .Overflow

/-- `ChannelError` from src/chunk/track/chunk.rs. -/
inductive ChannelError where
  | TooBig
deriving DecidableEq, Repr

/-- `Channel` from src/chunk/track/chunk.rs: a `u8` wrapper validated to
`< 16` by its `TryFrom` constructor. -/
structure Channel where
  val : Nat
deriving DecidableEq, Repr

/-- `TryFrom<u8> for Channel`. -/
def Channel.tryFrom (value : Nat) : Except ChannelError Channel :=
  if value < 16 then .ok ⟨value⟩ else .error .TooBig

/-- `VoiceMessage` from src/chunk/track/chunk.rs (a `backed_enum!` over `u8`
status-byte high nibbles). -/
inductive VoiceMessage where
  | NoteOff
  | NoteOn
  | PolyKeyPressure
  | ControlChange
  | ProgramChange
  | ChannelPressure
  | PitchBend
deriving DecidableEq, Repr

/-- `VoiceMessageError` generated by `backed_enum!`. -/
inductive VoiceMessageError where
  | InvalidValue
deriving DecidableEq, Repr

/-- The `u8` backing value of each `VoiceMessage` variant. -/
def VoiceMessage.toU8 : VoiceMessage → Nat
  | .NoteOff => 0x80
  | .NoteOn => 0x90
  | .PolyKeyPressure => 0xA0
  | .ControlChange => 0xB0
  | .ProgramChange => 0xC0
  | .ChannelPressure => 0xD0
  | .PitchBend => 0xE0

/-- `TryFrom<u8> for VoiceMessage` generated by `backed_enum!`: exhaustive
match over the backing values. -/
def VoiceMessage.tryFrom (value : Nat) : Except VoiceMessageError VoiceMessage :=
  if value = 0x80 then .ok .NoteOff
  else if value = 0x90 then .ok .NoteOn
  else if value = 0xA0 then .ok .PolyKeyPressure
  else if value = 0xB0 then .ok .ControlChange
  else if value = 0xC0 then .ok .ProgramChange
  else if value = 0xD0 then .ok .ChannelPressure
  else if value = 0xE0 then .ok .PitchBend
  else .error .InvalidValue

/-- `ModeMessage` from src/chunk/track/chunk.rs (a `backed_enum!` over `u8`
values 120–127). -/
inductive ModeMessage where
  | AllSoundOff
  | ResetAllControllers
  | LocalControl
  | AllNotesOff
  | OmniOff
  | OmniOn
  | Mono
  | Poly
deriving DecidableEq, Repr

/-- `ModeMessageError` generated by `backed_enum!`, with the extra
`NotEnoughBytes` variant declared at the use site. -/
inductive ModeMessageError where
  | InvalidValue
  | NotEnoughBytes
deriving DecidableEq, Repr

/-- The `u8` backing value of each `ModeMessage` variant. -/
def ModeMessage.toU8 : ModeMessage → Nat
  | .AllSoundOff => 120
  | .ResetAllControllers => 121
  | .LocalControl => 122
  | .AllNotesOff => 123
  | .OmniOff => 124
  | .OmniOn => 125
  | .Mono => 126
  | .Poly => 127

/-- `TryFrom<u8> for ModeMessage` generated by `backed_enum!`. -/
def ModeMessage.tryFrom (value : Nat) : Except ModeMessageError ModeMessage :=
  if value = 120 then .ok .AllSoundOff
  else if value = 121 then .ok .ResetAllControllers
  else if value = 122 then .ok .LocalControl
  else if value = 123 then .ok .AllNotesOff
  else if value = 124 then .ok .OmniOff
  else if value = 125 then .ok .OmniOn
  else if value = 126 then .ok .Mono
  else if value = 127 then .ok .Poly
  else .error .InvalidValue

/-- `<ModeMessage as Parse>::parse` from src/chunk/track/chunk.rs. -/
def ModeMessage.parse (bytes : List Nat) : Except ModeMessageError (ModeMessage × List Nat) :=
  match bytes with
  | [] => .error .NotEnoughBytes
  | b :: rest =>
    match ModeMessage.tryFrom b with
    | .ok message => .ok (message, rest)
    | .error e => .error e

/-- `VoiceMessageData` from src/chunk/track/chunk.rs. The `ControlChange`
variant carries no data in the source (its payload is a `todo!`). -/
inductive VoiceMessageData where
  | NoteOff (note_number : U7) (velocity : U7)
  | NoteOn (note_number : U7) (velocity : U7)
  | PolyKeyPressure (note_number : U7) (pressure : U7)
  | ControlChange
  | ProgramChange (program_number : U7)
  | ChannelPressure (pressure : U7)
  | PitchBend (change0 : U7) (change1 : U7)
deriving DecidableEq, Repr

/-- `VoiceMessageDataError` from src/chunk/track/chunk.rs. -/
inductive VoiceMessageDataError where
  | NotEnoughBytes
  | MessageType
  | NoteNumber (e : U7Error)
  | Velocity (e : U7Error)
  | ProgramNumber (e : U7Error)
  | Pressure (e : U7Error)
  | PitchBend (e : U7Error)
deriving DecidableEq, Repr

/-- `VoiceMessageData::get_first_nibble`: the status high nibble of each
variant (its internal assert holds by construction of the backing values). -/
def VoiceMessageData.getFirstNibble : VoiceMessageData → Nat
  | .NoteOff _ _ => VoiceMessage.NoteOff.toU8
  | .NoteOn _ _ => VoiceMessage.NoteOn.toU8
  | .PolyKeyPressure _ _ => VoiceMessage.PolyKeyPressure.toU8
  | .ControlChange => VoiceMessage.ControlChange.toU8
  | .ProgramChange _ => VoiceMessage.ProgramChange.toU8
  | .ChannelPressure _ => VoiceMessage.ChannelPressure.toU8
  | .PitchBend _ _ => VoiceMessage.PitchBend.toU8

/-- The `make_first_byte` closure of `VoiceMessageData::to_be_bytes`:
`voice_message_byte | channel_byte` with disjoint nibbles (asserted in the
source; every `Channel` built by `tryFrom` has `val < 16`, making `|` sum). -/
def makeFirstByte (voice_message : VoiceMessage) (channel : Channel) : Nat :=
  voice_message.toU8 + channel.val

/-- `VoiceMessageData::to_be_bytes` from src/chunk/track/chunk.rs. -/
def VoiceMessageData.toBeBytes (data : VoiceMessageData) (channel : Channel) : List Nat :=
  match data with
  | .NoteOff note_number velocity =>
    [makeFirstByte .NoteOff channel, note_number.val, velocity.val]
  | .NoteOn note_number velocity =>
    [makeFirstByte .NoteOn channel, note_number.val, velocity.val]
  | .PolyKeyPressure note_number pressure =>
    [makeFirstByte .PolyKeyPressure channel, note_number.val, pressure.val]
  | .ControlChange => [makeFirstByte .ControlChange channel]
  | .ProgramChange program_number =>
    [makeFirstByte .ProgramChange channel, program_number.val]
  | .ChannelPressure pressure => [makeFirstByte .ChannelPressure channel, pressure.val]
  | .PitchBend change0 change1 =>
    [makeFirstByte .PitchBend channel, change0.val, change1.val]

/-- The `u7_from_byte_at` closure of `<VoiceMessageData as Parse>::parse`:
read the byte at `index` (`NotEnoughBytes` past the end) and validate it as a
`U7`, wrapping an overflow with `error_constructor`. -/
def u7FromByteAt (bytes : List Nat) (index : Nat)
    (error_constructor : U7Error → VoiceMessageDataError) :
    Except VoiceMessageDataError U7 :=
  match bytes[index]? with
  | none => .error .NotEnoughBytes
  | some b =>
    match U7.tryFrom b with
    | .ok u => .ok u
    | .error e => .error (error_constructor e)

/-- `<VoiceMessageData as Parse>::parse` from src/chunk/track/chunk.rs.
The match is over `bytes[0] & 0xF0`; the `ControlChange` arm is a `todo!`. -/
def VoiceMessageData.parse (bytes : List Nat) :
    PResult VoiceMessageDataError (VoiceMessageData × List Nat) :=
  match bytes[0]? with
  | none => .err .NotEnoughBytes
  | some b0 =>
    let x := b0 / 16 % 16 * 16
    if x = VoiceMessage.NoteOff.toU8 then
      match u7FromByteAt bytes 1 .NoteNumber, u7FromByteAt bytes 2 .Velocity with
      | .ok note_number, .ok velocity => .ok (.NoteOff note_number velocity, bytes.drop 3)
      | .error e, _ => .err e
      | _, .error e => .err e
    else if x = VoiceMessage.NoteOn.toU8 then
      match u7FromByteAt bytes 1 .NoteNumber, u7FromByteAt bytes 2 .Velocity with
      | .ok note_number, .ok velocity => .ok (.NoteOn note_number velocity, bytes.drop 3)
      | .error e, _ => .err e
      | _, .error e => .err e
    else if x = VoiceMessage.PolyKeyPressure.toU8 then
      match u7FromByteAt bytes 1 .NoteNumber, u7FromByteAt bytes 2 .Pressure with
      | .ok note_number, .ok pressure => .ok (.PolyKeyPressure note_number pressure, bytes.drop 3)
      | .error e, _ => .err e
      | _, .error e => .err e
    else if x = VoiceMessage.ControlChange.toU8 then .panicked
    else if x = VoiceMessage.ProgramChange.toU8 then
      match u7FromByteAt bytes 1 .ProgramNumber with
      | .ok program_number => .ok (.ProgramChange program_number, bytes.drop 2)
      | .error e => .err e
    else if x = VoiceMessage.ChannelPressure.toU8 then
      match u7FromByteAt bytes 1 .Pressure with
      | .ok pressure => .ok (.ChannelPressure pressure, bytes.drop 2)
      | .error e => .err e
    else if x = VoiceMessage.PitchBend.toU8 then
      match u7FromByteAt bytes 1 .PitchBend, u7FromByteAt bytes 2 .PitchBend with
      | .ok change0, .ok change1 => .ok (.PitchBend change0 change1, bytes.drop 3)
      | .error e, _ => .err e
      | _, .error e => .err e
    else .err .MessageType

/-- `KeyType` from src/chunk/track/chunk.rs (`backed_enum!` over `u8`). -/
inductive KeyType where
  | Major
  | Minor
deriving DecidableEq, Repr

/-- `KeyTypeError` generated by `backed_enum!`. -/
inductive KeyTypeError where
  | InvalidValue
deriving DecidableEq, Repr

/-- The `u8` backing value of each `KeyType` variant. -/
def KeyType.toU8 : KeyType → Nat
  | .Major => 0
  | .Minor => 1

/-- `TryFrom<u8> for KeyType` generated by `backed_enum!`. -/
def KeyType.tryFrom (value : Nat) : Except KeyTypeError KeyType :=
  if value = 0 then .ok .Major
  else if value = 1 then .ok .Minor
  else .error .InvalidValue

/-- `SharpsOrFlats` from src/chunk/track/chunk.rs (`backed_enum!` over `i8`,
values −7 … 7). -/
inductive SharpsOrFlats where
  | SevenFlats
  | SixFlats
  | FiveFlats
  | FourFlats
  | ThreeFlats
  | TwoFlats
  | OneFlat
  | None
  | OneSharp
  | TwoSharps
  | ThreeSharps
  | FourSharps
  | FiveSharps
  | SixSharps
  | SevenSharps
deriving DecidableEq, Repr

/-- `SharpsOrFlatsError` generated by `backed_enum!`. -/
inductive SharpsOrFlatsError where
  | InvalidValue
deriving DecidableEq, Repr

/-- The `i8` backing value of each `SharpsOrFlats` variant. -/
def SharpsOrFlats.toI8 : SharpsOrFlats → Int
  | .SevenFlats => -7
  | .SixFlats => -6
  | .FiveFlats => -5
  | .FourFlats => -4
  | .ThreeFlats => -3
  | .TwoFlats => -2
  | .OneFlat => -1
  | .None => 0
  | .OneSharp => 1
  | .TwoSharps => 2
  | .ThreeSharps => 3
  | .FourSharps => 4
  | .FiveSharps => 5
  | .SixSharps => 6
  | .SevenSharps => 7

/-- The `as u8` reinterpretation (two's complement) of a `SharpsOrFlats`. -/
def SharpsOrFlats.asU8 (s : SharpsOrFlats) : Nat :=
  (s.toI8 % 256).toNat

/-- `TryFrom<i8> for SharpsOrFlats` generated by `backed_enum!`. -/
def SharpsOrFlats.tryFrom (value : Int) : Except SharpsOrFlatsError SharpsOrFlats :=
  if value = -7 then .ok .SevenFlats
  else if value = -6 then .ok .SixFlats
  else if value = -5 then .ok .FiveFlats
  else if value = -4 then .ok .FourFlats
  else if value = -3 then .ok .ThreeFlats
  else if value = -2 then .ok .TwoFlats
  else if value = -1 then .ok .OneFlat
  else if value = 0 then .ok .None
  else if value = 1 then .ok .OneSharp
  else if value = 2 then .ok .TwoSharps
  else if value = 3 then .ok .ThreeSharps
  else if value = 4 then .ok .FourSharps
  else if value = 5 then .ok .FiveSharps
  else if value = 6 then .ok .SixSharps
  else if value = 7 then .ok .SevenSharps
  else .error .InvalidValue

/-- `Tempo` from src/chunk/track/chunk.rs: a `u32` wrapper capped at
`2^24 - 1` by `Tempo::new`. -/
structure Tempo where
  val : Nat
deriving DecidableEq, Repr

/-- `Tempo::new`. -/
def Tempo.new (microseconds_per_quarter_note : Nat) : Option Tempo :=
  if 16777215 < microseconds_per_quarter_note then none
  else some ⟨microseconds_per_quarter_note⟩

/-- `MetaMessage` from src/chunk/track/chunk.rs. Rust `String` payloads are
modelled by their UTF-8 byte lists; `ChannelPrefix` is rendered as
`ChannelPrefixMsg`. -/
inductive MetaMessage where
  | SequenceNumber (n : Nat)
  | TextEvent (text : List Nat)
  | CopyrightNotice (text : List Nat)
  | SequenceName (text : List Nat)
  | InstrumentName (text : List Nat)
  | Lyric (text : List Nat)
  | Marker (text : List Nat)
  | CuePoint (text : List Nat)
  | ChannelPrefixMsg (ch : Nat)
  | EndOfTrack
  | SetTempo (tempo : Tempo)
  | SMPTEOffset (hour minute second frame hundredths_of_a_frame : Nat)
  | TimeSignature (numerator denominator cc bb : Nat)
  | KeySignature (sharps_or_flats : SharpsOrFlats) (key_type : KeyType)
  | SequencerSpecificEvent (bytes : List Nat)
deriving DecidableEq, Repr

/-- `MetaMessageError` from src/chunk/track/chunk.rs; `TextIsNotUtf8` keeps
the offending bytes (the `FromUtf8Error` payload). -/
inductive MetaMessageError where
  | NotEnoughBytes
  | Unrecognized (b0 b1 : Nat)
  | TextIsNotUtf8 (bytes : List Nat)
  | KeyType (e : KeyTypeError)
  | SharpsOrFlats (e : SharpsOrFlatsError)
deriving DecidableEq, Repr

/-- Whether `b` is a UTF-8 continuation byte (`0x80–0xBF`). -/
def utf8ContOk (b : Nat) : Bool :=
  0x80 ≤ b && b ≤ 0xBF

/-- Well-formed UTF-8 per `String::from_utf8` (no overlong forms, no
surrogates, code points ≤ U+10FFFF). -/
def utf8Valid : List Nat → Bool
  | [] => true
  | b :: rest =>
    if b ≤ 0x7F then utf8Valid rest
    else if 0xC2 ≤ b ∧ b ≤ 0xDF then
      match rest with
      | c1 :: rest' => utf8ContOk c1 && utf8Valid rest'
      | [] => false
    else if b = 0xE0 then
      match rest with
      | c1 :: c2 :: rest' => (0xA0 ≤ c1 && c1 ≤ 0xBF) && utf8ContOk c2 && utf8Valid rest'
      | _ => false
    else if (0xE1 ≤ b ∧ b ≤ 0xEC) ∨ b = 0xEE ∨ b = 0xEF then
      match rest with
      | c1 :: c2 :: rest' => utf8ContOk c1 && utf8ContOk c2 && utf8Valid rest'
      | _ => false
    else if b = 0xED then
      match rest with
      | c1 :: c2 :: rest' => (0x80 ≤ c1 && c1 ≤ 0x9F) && utf8ContOk c2 && utf8Valid rest'
      | _ => false
    else if b = 0xF0 then
      match rest with
      | c1 :: c2 :: c3 :: rest' =>
        (0x90 ≤ c1 && c1 ≤ 0xBF) && utf8ContOk c2 && utf8ContOk c3 && utf8Valid rest'
      | _ => false
    else if 0xF1 ≤ b ∧ b ≤ 0xF3 then
      match rest with
      | c1 :: c2 :: c3 :: rest' =>
        utf8ContOk c1 && utf8ContOk c2 && utf8ContOk c3 && utf8Valid rest'
      | _ => false
    else if b = 0xF4 then
      match rest with
      | c1 :: c2 :: c3 :: rest' =>
        (0x80 ≤ c1 && c1 ≤ 0x8F) && utf8ContOk c2 && utf8ContOk c3 && utf8Valid rest'
      | _ => false
    else false

/-- `String::from_utf8` on a byte vector: the bytes themselves on success
(a Rust `String` is its UTF-8 bytes), `TextIsNotUtf8` on failure. -/
def stringFromUtf8 (l : List Nat) : Except MetaMessageError (List Nat) :=
  if utf8Valid l then .ok l else .error (.TextIsNotUtf8 l)

/-- The `extract_text_event` closure of `<MetaMessage as Parse>::parse`:
reads the single length byte `bytes[1]`, then that many text bytes.
Call sites guarantee `bytes.length ≥ 2`. -/
def extractTextEvent (ctor : List Nat → MetaMessage) (bytes : List Nat) :
    Except MetaMessageError (MetaMessage × List Nat) :=
  if bytes.length < 2 + bytes.getD 1 0 then .error .NotEnoughBytes
  else
    match stringFromUtf8 ((bytes.drop 2).take (bytes.getD 1 0)) with
    | .ok text => .ok (ctor text, bytes.drop (2 + bytes.getD 1 0))
    | .error e => .error e

/-- `<MetaMessage as Parse>::parse` from src/chunk/track/chunk.rs.
`bytes` here is the slice after the leading `0xFF` status byte. -/
def MetaMessage.parse (bytes : List Nat) : PResult MetaMessageError (MetaMessage × List Nat) :=
  match bytes with
  | [] => .err .NotEnoughBytes
  | [_] => .err .NotEnoughBytes
  | b0 :: b1 :: rest =>
    if b0 = 0x00 ∧ b1 = 0x02 then
      match rest with
      | b2 :: b3 :: _ => .ok (.SequenceNumber (b2 * 256 + b3), bytes.drop 4)
      | _ => .err .NotEnoughBytes
    else if b0 = 0x01 then
      match extractTextEvent .TextEvent bytes with
      | .ok r => .ok r
      | .error e => .err e
    else if b0 = 0x02 then
      match extractTextEvent .CopyrightNotice bytes with
      | .ok r => .ok r
      | .error e => .err e
    else if b0 = 0x03 then
      match extractTextEvent .SequenceName bytes with
      | .ok r => .ok r
      | .error e => .err e
    else if b0 = 0x04 then
      match extractTextEvent .InstrumentName bytes with
      | .ok r => .ok r
      | .error e => .err e
    else if b0 = 0x05 then
      match extractTextEvent .Lyric bytes with
      | .ok r => .ok r
      | .error e => .err e
    else if b0 = 0x06 then
      match extractTextEvent .Marker bytes with
      | .ok r => .ok r
      | .error e => .err e
    else if b0 = 0x07 then
      match extractTextEvent .CuePoint bytes with
      | .ok r => .ok r
      | .error e => .err e
    else if b0 = 0x20 ∧ b1 = 0x01 then
      match rest with
      | b2 :: _ => .ok (.ChannelPrefixMsg b2, bytes.drop 3)
      | _ => .err .NotEnoughBytes
    else if b0 = 0x2F ∧ b1 = 0x00 then .ok (.EndOfTrack, bytes.drop 2)
    else if b0 = 0x51 ∧ b1 = 0x03 then
      match rest with
      | b2 :: b3 :: b4 :: _ =>
        match Tempo.new (b2 * 65536 + b3 * 256 + b4) with
        | some tempo => .ok (.SetTempo tempo, bytes.drop 5)
        | none => .panicked
      | _ => .err .NotEnoughBytes
    else if b0 = 0x54 ∧ b1 = 0x05 then
      match rest with
      | b2 :: b3 :: b4 :: b5 :: b6 :: _ =>
        .ok (.SMPTEOffset b2 b3 b4 b5 b6, bytes.drop 7)
      | _ => .err .NotEnoughBytes
    else if b0 = 0x58 ∧ b1 = 0x04 then
      match rest with
      | b2 :: b3 :: b4 :: b5 :: _ => .ok (.TimeSignature b2 b3 b4 b5, bytes.drop 6)
      | _ => .err .NotEnoughBytes
    else if b0 = 0x59 ∧ b1 = 0x02 then
      match rest with
      | b2 :: b3 :: _ =>
        match SharpsOrFlats.tryFrom (i8OfU8 b2) with
        | .error e => .err (.SharpsOrFlats e)
        | .ok sharps_or_flats =>
          match KeyType.tryFrom b3 with
          | .error e => .err (.KeyType e)
          | .ok key_type => .ok (.KeySignature sharps_or_flats key_type, bytes.drop 4)
      | _ => .err .NotEnoughBytes
    else if b0 = 0x7F then
      if bytes.length < 2 + b1 then .err .NotEnoughBytes
      else .ok (.SequencerSpecificEvent ((bytes.drop 2).take b1), bytes.drop (2 + b1))
    else .err (.Unrecognized b0 b1)

/-- `From<&MetaMessage> for Vec<u8>` from src/chunk/track/chunk.rs. Each
free-text and sequencer-specific variant writes a VLQ length via
`Vlq::try_from(len as u32).unwrap()` (the source panics above
`MAX_REPRESENTABLE`; every theorem below stays within the cap). -/
def metaToBytes : MetaMessage → List Nat
  | .SequenceNumber n => [0x00, 0x02] ++ [n / 256 % 256, n % 256]
  | .TextEvent text => [0x01] ++ (vlqOfNat text.length).toBytes ++ text
  | .CopyrightNotice text => [0x02] ++ (vlqOfNat text.length).toBytes ++ text
  | .SequenceName text => [0x03] ++ (vlqOfNat text.length).toBytes ++ text
  | .InstrumentName text => [0x04] ++ (vlqOfNat text.length).toBytes ++ text
  | .Lyric text => [0x05] ++ (vlqOfNat text.length).toBytes ++ text
  | .Marker text => [0x06] ++ (vlqOfNat text.length).toBytes ++ text
  | .CuePoint text => [0x07] ++ (vlqOfNat text.length).toBytes ++ text
  | .ChannelPrefixMsg ch => [0x20, 0x01, ch]
  | .EndOfTrack => [0x2F, 0x00]
  | .SetTempo tempo => [0x51, 0x03] ++ [tempo.val / 65536 % 256, tempo.val / 256 % 256, tempo.val % 256]
  | .SMPTEOffset hour minute second frame hundredths_of_a_frame =>
    [0x54, 0x05, hour, minute, second, frame, hundredths_of_a_frame]
  | .TimeSignature numerator denominator cc bb => [0x58, 0x04, numerator, denominator, cc, bb]
  | .KeySignature sharps_or_flats key_type =>
    [0x59, 0x02, sharps_or_flats.asU8, key_type.toU8]
  | .SequencerSpecificEvent bytes => [0x7F] ++ (vlqOfNat bytes.length).toBytes ++ bytes

/-- `SysexMessage` from src/chunk/track/chunk.rs. -/
structure SysexMessage where
  length : Vlq
  bytes : List Nat
deriving DecidableEq, Repr

/-- `ChannelMessage` from src/chunk/track/chunk.rs: a voice message with a
channel, or a mode message (which carries no channel). -/
inductive ChannelMessage where
  | Voice (channel : Channel) (data : VoiceMessageData)
  | Mode (m : ModeMessage)
deriving DecidableEq, Repr

/-- `From<&ChannelMessage> for Vec<u8>` from src/chunk/track/chunk.rs: a mode
message is encoded as the single mode-code byte. -/
def channelMessageToBytes : ChannelMessage → List Nat
  | .Mode m => [m.toU8]
  | .Voice channel data => data.toBeBytes channel

/-- `Event` from src/chunk/track/chunk.rs. -/
inductive Event where
  | Midi (m : ChannelMessage)
  | Sysex (s : SysexMessage)
  | Meta (m : MetaMessage)
deriving DecidableEq, Repr

/-- `EventError` from src/chunk/track/chunk.rs. -/
inductive EventError where
  | NotEnoughBytes
  | MetaMessage (e : MetaMessageError)
  | ModeMessage (e : ModeMessageError)
  | VoiceMessageData (e : VoiceMessageDataError)
deriving DecidableEq, Repr

/-- `From<&Event> for Vec<u8>` from src/chunk/track/chunk.rs. -/
def eventToBytes : Event → List Nat
  | .Midi channel_message => channelMessageToBytes channel_message
  | .Sysex s => [0xF0] ++ s.length.toBytes ++ s.bytes
  | .Meta message => [0xFF] ++ metaToBytes message

/-- `<Event as Parse>::parse` from src/chunk/track/chunk.rs. The `0xF0` and
`0xF7` (sysex) arms are `todo!()` in the source and therefore panic; the
voice arm re-checks the status nibble with an `assert!` and unwraps the
always-valid channel with `expect`. -/
def Event.parse (bytes : List Nat) : PResult EventError (Event × List Nat) :=
  match bytes[0]? with
  | none => .err .NotEnoughBytes
  | some b0 =>
    if b0 = 0xF0 then .panicked
    else if b0 = 0xF7 then .panicked
    else if b0 = 0xFF then
      match MetaMessage.parse (bytes.drop 1) with
      | .ok (message, remainder) => .ok (.Meta message, remainder)
      | .err e => .err (.MetaMessage e)
      | .panicked => .panicked
    else
      match VoiceMessage.tryFrom (b0 / 16 % 16 * 16) with
      | .ok message =>
        match Channel.tryFrom (b0 % 16) with
        | .error _ => .panicked
        | .ok channel =>
          match VoiceMessageData.parse bytes with
          | .ok (data, remainder) =>
            if message.toU8 = data.getFirstNibble then
              .ok (.Midi (.Voice channel data), remainder)
            else .panicked
          | .err e => .err (.VoiceMessageData e)
          | .panicked => .panicked
      | .error _ =>
        match ModeMessage.parse bytes with
        | .ok (message, remainder) => .ok (.Midi (.Mode message), remainder)
        | .error e => .err (.ModeMessage e)

/-- `MTrkEvent` from src/chunk/track/chunk.rs. -/
structure MTrkEvent where
  delta_time : Vlq
  event : Event
deriving DecidableEq, Repr

/-- `MTrkEventError` from src/chunk/track/chunk.rs. -/
inductive MTrkEventError where
  | NotEnoughBytes
  | DeltaTime (e : VlqError)
  | Event (e : EventError)
deriving DecidableEq, Repr

/-- `From<&MTrkEvent> for Vec<u8>`: delta-time bytes then event bytes. -/
def mtrkEventToBytes (mtrk_event : MTrkEvent) : List Nat :=
  mtrk_event.delta_time.toBytes ++ eventToBytes mtrk_event.event

/-- `<MTrkEvent as Parse>::parse` from src/chunk/track/chunk.rs: rejects any
buffer shorter than 4 bytes up front, then parses a delta-time `Vlq` and an
`Event`. -/
def MTrkEvent.parse (bytes : List Nat) : PResult MTrkEventError (MTrkEvent × List Nat) :=
  if bytes.length < 4 then .err .NotEnoughBytes
  else
    match Vlq.parse bytes with
    | .error e => .err (.DeltaTime e)
    | .ok (delta_time, remainder) =>
      match Event.parse remainder with
      | .ok (event, remainder2) => .ok (⟨delta_time, event⟩, remainder2)
      | .err e => .err (.Event e)
      | .panicked => .panicked

/-- `ChunkError` (track) from src/chunk/track/chunk.rs. -/
inductive ChunkError where
  | NotEnoughBytes
  | ChunkType
  | MTrkEventError (e : MTrkEventError)
deriving DecidableEq, Repr

/-- `Chunk` (track) from src/chunk/track/chunk.rs: an ordered event list. -/
structure Chunk where
  events : List MTrkEvent
deriving DecidableEq, Repr

/-- `From<&EventsList> for Vec<u8>`: concatenation of the events' bytes. -/
def eventsListToBytes (events : List MTrkEvent) : List Nat :=
  events.foldl (fun result e => result ++ mtrkEventToBytes e) []

/-- Big-endian `u32` bytes of `n` (`(n as u32).to_be_bytes()`). -/
def u32ToBeBytes (n : Nat) : List Nat :=
  [n / 16777216 % 256, n / 65536 % 256, n / 256 % 256, n % 256]

/-- `From<&Chunk> for Vec<u8>` (track): `MTrk`, big-endian payload length,
then the payload. -/
def trackChunkToBytes (chunk : Chunk) : List Nat :=
  let payload_bytes := eventsListToBytes chunk.events
  [77, 84, 114, 107] ++ u32ToBeBytes payload_bytes.length ++ payload_bytes

/-- Big-endian `u32` value of the four bytes at the head of `l`
(`u32::from_be_bytes`). -/
def u32FromBeBytes (l : List Nat) : Nat :=
  l.getD 0 0 * 16777216 + l.getD 1 0 * 65536 + l.getD 2 0 * 256 + l.getD 3 0

/-- The `while !remainder.is_empty()` event loop of `<Chunk as Parse>::parse`
(track), with explicit fuel: `none` means the fuel ran out before the
remainder was exhausted (never reached when `fuel ≥ remainder.length`, see
`parseEventsFuel_isSome`). -/
def parseEventsFuel : Nat → List Nat → Option (PResult MTrkEventError (List MTrkEvent))
  | _, [] => some (.ok [])
  | 0, _ :: _ => none
  | fuel + 1, b :: rest =>
    match MTrkEvent.parse (b :: rest) with
    | .ok (event, remainder) => (parseEventsFuel fuel remainder).map (PResult.map (event :: ·))
    | .err e => some (.err e)
    | .panicked => some .panicked

/-- `<Chunk as Parse>::parse` (track) from src/chunk/track/chunk.rs: requires
at least 10 bytes, checks the `MTrk` tag, reads the 32-bit payload length,
requires that many payload bytes, then runs the event loop over exactly the
declared payload (fuel: its length; the `none` branch is unreachable). -/
def Chunk.parse (value : List Nat) : PResult ChunkError (Chunk × List Nat) :=
  if value.length < 10 then .err .NotEnoughBytes
  else if value.take 4 ≠ [77, 84, 114, 107] then .err .ChunkType
  else
    let chunk_length := u32FromBeBytes (value.drop 4)
    if value.length - 8 < chunk_length then .err .NotEnoughBytes
    else
      match parseEventsFuel chunk_length ((value.drop 8).take chunk_length) with
      | some (.ok events) => .ok (⟨events⟩, value.drop (8 + chunk_length))
      | some (.err e) => .err (.MTrkEventError e)
      | some .panicked => .panicked
      | none => .panicked

end Track

/-! ## src/chunk/header/ — the header chunk -/

namespace Header

/-- `Format` from src/chunk/header/chunk.rs (`backed_enum!` over `u16`). -/
inductive Format where
  | SingleMultiChannelTrack
  | OneOrMoreSimultaneousTracks
  | OneOrMoreIndependentTracks
deriving DecidableEq, Repr

/-- `FormatError` generated by `backed_enum!`. -/
inductive FormatError where
  | InvalidValue
deriving DecidableEq, Repr

/-- The `u16` backing value of each `Format` variant. -/
def Format.toU16 : Format → Nat
  | .SingleMultiChannelTrack => 0
  | .OneOrMoreSimultaneousTracks => 1
  | .OneOrMoreIndependentTracks => 2

/-- `TryFrom<u16> for Format` generated by `backed_enum!`. -/
def Format.tryFrom (value : Nat) : Except FormatError Format :=
  if value = 0 then .ok .SingleMultiChannelTrack
  else if value = 1 then .ok .OneOrMoreSimultaneousTracks
  else if value = 2 then .ok .OneOrMoreIndependentTracks
  else .error .InvalidValue

/-- `SMPTETimecodeFormat` from src/chunk/header/division.rs (`backed_enum!`
over `i8`, values −24, −25, −29, −30). -/
inductive SMPTETimecodeFormat where
  | TwentyFour
  | TwentyFive
  | ThirtyDropFrame
  | Thirty
deriving DecidableEq, Repr

/-- `SMPTETimecodeFormatError` generated by `backed_enum!`. -/
inductive SMPTETimecodeFormatError where
  | InvalidValue
deriving DecidableEq, Repr

/-- The `i8` backing value of each `SMPTETimecodeFormat` variant. -/
def SMPTETimecodeFormat.toI8 : SMPTETimecodeFormat → Int
  | .TwentyFour => -24
  | .TwentyFive => -25
  | .ThirtyDropFrame => -29
  | .Thirty => -30

/-- The `as u8` reinterpretation (two's complement) of the backing `i8`. -/
def SMPTETimecodeFormat.asU8 (tf : SMPTETimecodeFormat) : Nat :=
  (tf.toI8 % 256).toNat

/-- `TryFrom<i8> for SMPTETimecodeFormat` generated by `backed_enum!`. -/
def SMPTETimecodeFormat.tryFrom (value : Int) : Except SMPTETimecodeFormatError SMPTETimecodeFormat :=
  if value = -24 then .ok .TwentyFour
  else if value = -25 then .ok .TwentyFive
  else if value = -29 then .ok .ThirtyDropFrame
  else if value = -30 then .ok .Thirty
  else .error .InvalidValue

/-- `DivisionError` from src/chunk/header/division.rs. -/
inductive DivisionError where
  | TicksPerQuarterNoteMustBeGreaterThanZero
  | TicksPerFrameMustBeGreaterThanZero
  | SMPTETimecodeFormatError (e : SMPTETimecodeFormatError)
deriving DecidableEq, Repr

/-- `Division` from src/chunk/header/division.rs. The `NonZeroU16` /
`NonZeroU8` payloads are `Nat`s whose nonzero-ness `Division::try_from`
validates. -/
inductive Division where
  | TicksPerQuarterNote (n : Nat)
  | SubdivisionsOfASecond (timecode_format : SMPTETimecodeFormat) (ticks_per_frame : Nat)
deriving DecidableEq, Repr

/-- `TryFrom<u16> for Division` from src/chunk/header/division.rs: the top
(marker) bit selects the variant; in the SMPTE branch the timecode format is
validated before the ticks-per-frame zero check. -/
def Division.tryFrom (bytes : Nat) : Except DivisionError Division :=
  if bytes / 32768 % 2 = 0 then
    if bytes % 32768 = 0 then .error .TicksPerQuarterNoteMustBeGreaterThanZero
    else .ok (.TicksPerQuarterNote (bytes % 32768))
  else
    match SMPTETimecodeFormat.tryFrom (i8OfU8 (bytes / 256 % 256)) with
    | .error e => .error (.SMPTETimecodeFormatError e)
    | .ok timecode_format =>
      if bytes % 256 = 0 then .error .TicksPerFrameMustBeGreaterThanZero
      else .ok (.SubdivisionsOfASecond timecode_format (bytes % 256))

/-- `Division::high_byte` from src/chunk/header/division.rs. -/
def Division.highByte : Division → Nat
  | .TicksPerQuarterNote n => n % 32768 / 256 % 256
  | .SubdivisionsOfASecond timecode_format _ => timecode_format.asU8

/-- `Division::low_byte` from src/chunk/header/division.rs. -/
def Division.lowByte : Division → Nat
  | .TicksPerQuarterNote n => n % 32768 % 256
  | .SubdivisionsOfASecond _ ticks_per_frame => ticks_per_frame

/-- `ChunkError` (header) from src/chunk/header/chunk.rs. -/
inductive ChunkError where
  | SliceSize
  | ChunkType
  | ChunkLength
  | Format (e : FormatError)
  | NumberOfTracks
  | Division (e : DivisionError)
deriving DecidableEq, Repr

/-- `Chunk` (header) from src/chunk/header/chunk.rs; `ntrks` is the
`NonZeroU16` payload as a `Nat`. -/
structure Chunk where
  format : Format
  ntrks : Nat
  division : Division
deriving DecidableEq, Repr

/-- `IntoIterator for Chunk` (header): the fixed 14-byte encoding. -/
def Chunk.toBytes (c : Chunk) : List Nat :=
  [77, 84, 104, 100,
   0, 0, 0, 6,
   c.format.toU16 / 256 % 256, c.format.toU16 % 256,
   c.ntrks / 256 % 256, c.ntrks % 256,
   c.division.highByte, c.division.lowByte]

/-- `TryFrom<&[u8]> for Chunk` (header) from src/chunk/header/chunk.rs. -/
def Chunk.tryFrom (value : List Nat) : Except ChunkError Chunk :=
  if value.length ≠ 14 then .error .SliceSize
  else if value.take 4 ≠ [77, 84, 104, 100] then .error .ChunkType
  else if (value.drop 4).take 4 ≠ [0, 0, 0, 6] then .error .ChunkLength
  else
    match Format.tryFrom (value.getD 8 0 * 256 + value.getD 9 0) with
    | .error e => .error (.Format e)
    | .ok format =>
      let ntrks := value.getD 10 0 * 256 + value.getD 11 0
      if ntrks = 0 then .error .NumberOfTracks
      else
        match Division.tryFrom (value.getD 12 0 * 256 + value.getD 13 0) with
        | .error e => .error (.Division e)
        | .ok division => .ok ⟨format, ntrks, division⟩

end Header

/-- Proof-support: the value denoted by a little-endian list of stored 7-bit
groups (each group's top continuation bit masked off). -/
def listValLE : List Nat → Nat
  | [] => 0
  | b :: rest => b % 128 + 128 * listValLE rest

/-! ## Theorems -/

/-- C10: `MTrkEvent::parse` returns `NotEnoughBytes` for every input shorter
than 4 bytes, even when those bytes form a complete delta-time plus event
pair; no event is ever parsed from a remainder of 1 to 3 bytes. -/
theorem mtrkEvent_parse_short_buffer (bytes : List Nat) (h : bytes.length < 4) :
    Track.MTrkEvent.parse bytes = .err .NotEnoughBytes := by
  unfold Track.MTrkEvent.parse
  simp [h]

/-- Witness for `mtrkEvent_parse_short_buffer`: the 2-byte buffer
`[0x00, 120]` is a complete delta-time plus mode-message pair, yet parsing
it fails with `NotEnoughBytes`. -/
theorem mtrkEvent_parse_short_buffer_witness :
    ([0, 120] : List Nat).length < 4 ∧
      Track.MTrkEvent.parse [0, 120] = .err .NotEnoughBytes :=
  ⟨by decide, mtrkEvent_parse_short_buffer [0, 120] (by decide)⟩

/-- C3: for every buffer whose first byte is `0xF0`, `Event::parse` hits the
`todo!()` arm and panics instead of parsing a system-exclusive event or
returning a typed error. -/
theorem event_parse_sysex_panics (rest : List Nat) :
    Track.Event.parse (0xF0 :: rest) = .panicked := by
  unfold Track.Event.parse
  simp

/-- C1: the track round trip fails on the code: a single well-formed mode
event with delta-time 0 encodes to a 10-byte chunk whose parse fails with a
wrapped `NotEnoughBytes` (the payload is 2 bytes and `MTrkEvent::parse`
rejects any remainder shorter than 4 bytes). -/
theorem track_roundtrip_fails_on_mode_event :
    Track.trackChunkToBytes ⟨[⟨vlqOfNat 0, .Midi (.Mode .AllSoundOff)⟩]⟩ =
      [77, 84, 114, 107, 0, 0, 0, 2, 0, 120] ∧
    Track.Chunk.parse (Track.trackChunkToBytes ⟨[⟨vlqOfNat 0, .Midi (.Mode .AllSoundOff)⟩]⟩) =
      .err (.MTrkEventError .NotEnoughBytes) := by decide

/-- C4 counterexample: the encoded wire form of a mode message is the single
mode-code byte, not two bytes, and decoding the two-byte
`[0xB0, 120]` sequence panics in the unimplemented `ControlChange` arm. -/
theorem mode_encode_counterexample :
    Track.channelMessageToBytes (.Mode .AllSoundOff) = [120] ∧
    (Track.channelMessageToBytes (.Mode .AllSoundOff)).length ≠ 2 ∧
    Track.Event.parse [0xB0, 120] = .panicked := by decide

/-- C4 (amended): every channel mode message encodes to exactly one byte —
the mode code 120–127 itself — and `Event::parse` of that single byte
returns the corresponding mode message. -/
theorem mode_encode_one_byte_roundtrip (m : Track.ModeMessage) :
    Track.channelMessageToBytes (.Mode m) = [m.toU8] ∧
    Track.Event.parse [m.toU8] = .ok (.Midi (.Mode m), []) := by
  cases m <;> exact ⟨rfl, by decide⟩

set_option maxRecDepth 4000 in
/-- C5: the free-text meta round trip fails for texts longer than 127 bytes:
encoding writes a multi-byte VLQ length (`[0x81, 0x00]` for 128) but
decoding reads the single byte `0x81 = 129` as the length, returning a
different 129-byte text. -/
theorem metaText_vlq_length_roundtrip_fails :
    Track.metaToBytes (.TextEvent (List.replicate 128 97)) =
      0x01 :: 0x81 :: 0x00 :: List.replicate 128 97 ∧
    Track.MetaMessage.parse (Track.metaToBytes (.TextEvent (List.replicate 128 97))) =
      .ok (.TextEvent (0 :: List.replicate 128 97), []) ∧
    (0 : Nat) :: List.replicate 128 97 ≠ List.replicate 128 97 := by decide

/-- C6 counterexample: the exactly-8-byte buffer `"MTrk"` + length 0 does
not parse to an empty track chunk; `Chunk::parse` requires at least 10 bytes
and fails with `NotEnoughBytes`. -/
theorem trackChunk_parse_8byte_empty_errs :
    Track.Chunk.parse [77, 84, 114, 107, 0, 0, 0, 0] = .err .NotEnoughBytes ∧
    Track.Chunk.parse [77, 84, 114, 107, 0, 0, 0, 0] ≠ .ok (⟨[]⟩, []) := by decide

/-- C6 (amended): track `Chunk::parse` fails with the top-level
`NotEnoughBytes` exactly when the buffer holds fewer than 10 bytes, or holds
the `MTrk` tag but fewer than 8 plus the declared payload length. -/
theorem trackChunk_notEnoughBytes_iff (value : List Nat) :
    Track.Chunk.parse value = .err .NotEnoughBytes ↔
      value.length < 10 ∨
        (value.take 4 = [77, 84, 114, 107] ∧
          value.length - 8 < Track.u32FromBeBytes (value.drop 4)) := by
  unfold Track.Chunk.parse
  by_cases h1 : value.length < 10
  · simp [h1]
  · simp only [h1, if_false, or_false, false_or]
    by_cases h2 : value.take 4 = [77, 84, 114, 107]
    · simp only [h2, ne_eq, not_true_eq_false, if_false]
      by_cases h3 : value.length - 8 < Track.u32FromBeBytes (value.drop 4)
      · simp [h3]
      · simp only [h3, if_false, iff_false, and_false]
        rcases hput : Track.parseEventsFuel (Track.u32FromBeBytes (value.drop 4))
            ((value.drop 8).take (Track.u32FromBeBytes (value.drop 4))) with _ | r
        · simp [hput]
        · cases r <;> simp [hput]
    · simp [h2]

/-- C7 counterexample: dividing value `0x8000` has the top bit set and a zero
low byte, but its decode fails with `SMPTETimecodeFormatError`, not
`TicksPerFrameMustBeGreaterThanZero` (the SMPTE rate is validated first). -/
theorem division_0x8000_smpte_error :
    Header.Division.tryFrom 0x8000 = .error (.SMPTETimecodeFormatError .InvalidValue) ∧
    Header.Division.tryFrom 0x8000 ≠ .error .TicksPerFrameMustBeGreaterThanZero := by decide

/-- C7 (amended): for a 16-bit division value with top bit set and low byte
zero, decode fails `TicksPerFrameMustBeGreaterThanZero` exactly when the high
byte is one of the four legal SMPTE rates (0xE8, 0xE7, 0xE3, 0xE2); for the
other 124 high bytes it fails `SMPTETimecodeFormatError` instead. -/
theorem division_topBit_lowByteZero (h : Nat) (h1 : 128 ≤ h) (h2 : h < 256) :
    ((h = 232 ∨ h = 231 ∨ h = 227 ∨ h = 226) →
      Header.Division.tryFrom (h * 256) = .error .TicksPerFrameMustBeGreaterThanZero) ∧
    (¬(h = 232 ∨ h = 231 ∨ h = 227 ∨ h = 226) →
      Header.Division.tryFrom (h * 256) =
        .error (.SMPTETimecodeFormatError .InvalidValue)) := by
  interval_cases h <;> decide

/-- Witness for `division_topBit_lowByteZero` at the legal rate −24
(high byte 0xE8 = 232, value 0xE800). -/
theorem division_topBit_lowByteZero_witness :
    Header.Division.tryFrom (232 * 256) = .error .TicksPerFrameMustBeGreaterThanZero :=
  (division_topBit_lowByteZero 232 (by decide) (by decide)).1 (by decide)

/-- Validity of a `Division` for encoding, as hypothesised by C8: a nonzero
ticks-per-quarter-note below 2^15, or a nonzero ticks-per-frame `u8`. -/
def Header.DivisionValid : Header.Division → Prop
  | .TicksPerQuarterNote n => 0 < n ∧ n < 32768
  | .SubdivisionsOfASecond _ ticks_per_frame => 0 < ticks_per_frame ∧ ticks_per_frame < 256

/-- Decoding the SMPTE division bytes produced by `as u8` of a legal rate and
a nonzero ticks-per-frame recovers the same division. -/
theorem division_tryFrom_smpte (tf : Header.SMPTETimecodeFormat) (tpf : Nat)
    (h0 : 0 < tpf) (h1 : tpf < 256) :
    Header.Division.tryFrom (tf.asU8 * 256 + tpf) = .ok (.SubdivisionsOfASecond tf tpf) := by
  have hk1 : 128 ≤ tf.asU8 := by cases tf <;> decide
  have hk2 : tf.asU8 < 256 := by cases tf <;> decide
  unfold Header.Division.tryFrom
  have e2 : (tf.asU8 * 256 + tpf) / 32768 % 2 = 1 := by omega
  have e3 : (tf.asU8 * 256 + tpf) / 256 % 256 = tf.asU8 := by omega
  have e4 : (tf.asU8 * 256 + tpf) % 256 = tpf := by omega
  have e5 : Header.SMPTETimecodeFormat.tryFrom (i8OfU8 tf.asU8) = .ok tf := by
    cases tf <;> decide
  simp only [e2, e3, e4, e5]
  norm_num
  intro hc
  exact absurd hc h0.ne'

/-- Decoding the two division bytes produced by `high_byte`/`low_byte`
recovers a valid `Division`. -/
theorem division_tryFrom_of_bytes (d : Header.Division) (hv : Header.DivisionValid d) :
    Header.Division.tryFrom (Header.Division.highByte d * 256 + Header.Division.lowByte d) =
      .ok d := by
  cases d with
  | TicksPerQuarterNote n =>
    obtain ⟨h0, h1⟩ := hv
    unfold Header.Division.highByte Header.Division.lowByte Header.Division.tryFrom
    have e1 : n % 32768 / 256 % 256 * 256 + n % 32768 % 256 = n := by omega
    rw [e1]
    have e2 : n / 32768 % 2 = 0 := by omega
    have e3 : n % 32768 = n := by omega
    simp [e2, e3, h0.ne']
  | SubdivisionsOfASecond tf tpf =>
    obtain ⟨h0, h1⟩ := hv
    exact division_tryFrom_smpte tf tpf h0 h1

/-- C8: decoding the 14-byte `IntoIterator` encoding of a header chunk built
from a legal format, a nonzero 16-bit track count, and a valid division
returns `Ok` of an equal chunk. -/
theorem header_chunk_roundtrip (format : Header.Format) (ntrks : Nat)
    (division : Header.Division) (h1 : 0 < ntrks) (h2 : ntrks < 65536)
    (h3 : Header.DivisionValid division) :
    Header.Chunk.tryFrom (Header.Chunk.toBytes ⟨format, ntrks, division⟩) =
      .ok ⟨format, ntrks, division⟩ := by
  have hdiv := division_tryFrom_of_bytes division h3
  unfold Header.Chunk.toBytes Header.Chunk.tryFrom
  simp only [List.length_cons, List.length_nil, List.take, List.drop, List.getD,
    List.getElem?_cons_zero, List.getElem?_cons_succ, Option.getD_some]
  norm_num
  have hfmt : Header.Format.tryFrom
      (Header.Format.toU16 format / 256 % 256 * 256 + Header.Format.toU16 format % 256) =
      .ok format := by
    cases format <;> decide
  rw [hfmt]
  have hnt : ntrks / 256 % 256 * 256 + ntrks % 256 = ntrks := by omega
  rw [hnt]
  simp [h1.ne', hdiv]
  omega

/-- Witness for `header_chunk_roundtrip`: format 1, 11 tracks, 1024 ticks
per quarter note (the spec's end-to-end example header). -/
theorem header_chunk_roundtrip_witness :
    Header.Chunk.tryFrom (Header.Chunk.toBytes
        ⟨.OneOrMoreSimultaneousTracks, 11, .TicksPerQuarterNote 1024⟩) =
      .ok ⟨.OneOrMoreSimultaneousTracks, 11, .TicksPerQuarterNote 1024⟩ :=
  header_chunk_roundtrip .OneOrMoreSimultaneousTracks 11 (.TicksPerQuarterNote 1024)
    (by decide) (by decide) (by exact ⟨by decide, by decide⟩)

/-- The encoder loop never produces an empty group list. -/
theorem vlqStoredGo_ne_nil (fuel n : Nat) : vlqStoredGo fuel n ≠ [] := by
  cases fuel with
  | zero => simp [vlqStoredGo]
  | succ f =>
    simp only [vlqStoredGo]
    split <;> simp

/-- Decoding the little-endian groups emitted by the encoder loop recovers
the encoded value. -/
theorem listValLE_vlqStoredGo (fuel n : Nat) (h : n < 128 ^ (fuel + 1)) :
    listValLE (vlqStoredGo fuel n) = n := by
  induction fuel generalizing n with
  | zero =>
    have hn : n < 128 := by simpa using h
    simp [vlqStoredGo, listValLE]
    omega
  | succ f ih =>
    by_cases h127 : 127 < n
    · have hdiv : n / 128 < 128 ^ (f + 1) := by
        rw [Nat.div_lt_iff_lt_mul (by norm_num)]
        calc n < 128 ^ (f + 1 + 1) := h
          _ = 128 ^ (f + 1) * 128 := by ring
      simp [vlqStoredGo, h127, listValLE, ih _ hdiv]
      omega
    · simp [vlqStoredGo, h127, listValLE]
      omega

/-- Decoding the stored groups (after the head-byte unmasking) also recovers
the value: the decoder masks each group anyway. -/
theorem listValLE_vlqStored (n : Nat) (h : n < 128 ^ 5) :
    listValLE (vlqStored n) = n := by
  unfold vlqStored
  rcases hgo : vlqStoredGo 4 n with _ | ⟨b, rest⟩
  · exact absurd hgo (vlqStoredGo_ne_nil 4 n)
  · have hv := listValLE_vlqStoredGo 4 n h
    rw [hgo] at hv
    simp only [listValLE] at hv ⊢
    omega

/-- Every group emitted by the encoder loop has the continuation flag set
and fits in a byte. -/
theorem vlqStoredGo_mem (fuel n : Nat) : ∀ b ∈ vlqStoredGo fuel n, 128 ≤ b ∧ b < 256 := by
  induction fuel generalizing n with
  | zero => intro b hb; simp [vlqStoredGo] at hb; omega
  | succ f ih =>
    intro b hb
    by_cases h127 : 127 < n
    · simp [vlqStoredGo, h127] at hb
      rcases hb with hb | hb
      · omega
      · exact ih _ b hb
    · simp [vlqStoredGo, h127] at hb
      omega

/-- With enough fuel for the encoded value, the group list is no longer than
the fuel. -/
theorem vlqStoredGo_length_le (fuel n : Nat) (h0 : 1 ≤ fuel) (h : n < 128 ^ fuel) :
    (vlqStoredGo fuel n).length ≤ fuel := by
  induction fuel generalizing n with
  | zero => omega
  | succ f ih =>
    by_cases h127 : 127 < n
    · have hf : 1 ≤ f := by
        rcases Nat.eq_zero_or_pos f with rf | rf
        · subst rf; norm_num at h; omega
        · exact rf
      have hdiv : n / 128 < 128 ^ f := by
        rw [Nat.div_lt_iff_lt_mul (by norm_num)]
        calc n < 128 ^ (f + 1) := h
          _ = 128 ^ f * 128 := by ring
      simp only [vlqStoredGo, h127, if_true, List.length_cons]
      have := ih (n / 128) hf hdiv
      omega
    · simp [vlqStoredGo, h127]

/-- Decomposition of the stored groups: a masked head below 128 followed by
continuation bytes in `[128, 256)`. -/
theorem vlqStored_decomp (n : Nat) :
    ∃ g gs, vlqStored n = g :: gs ∧ g < 128 ∧ (∀ b ∈ gs, 128 ≤ b ∧ b < 256) ∧
      (g :: gs).length = (vlqStoredGo 4 n).length := by
  rcases hgo : vlqStoredGo 4 n with _ | ⟨b, rest⟩
  · exact absurd hgo (vlqStoredGo_ne_nil 4 n)
  · refine ⟨b % 128, rest, by simp [vlqStored, hgo], by omega, ?_, by simp [hgo]⟩
    intro x hx
    exact vlqStoredGo_mem 4 n x (by simp [hgo, hx])

/-- Appending a final group multiplies its contribution by the place value. -/
theorem listValLE_append_singleton (xs : List Nat) (b : Nat) :
    listValLE (xs ++ [b]) = listValLE xs + b % 128 * 128 ^ xs.length := by
  induction xs with
  | nil => simp [listValLE]
  | cons x t ih =>
    simp only [List.cons_append, listValLE, List.append_eq, ih, List.length_cons]
    ring

/-- The most-significant-first fold (without wraparound) computes the value
of the reversed group list. -/
theorem foldl_plain_eq (l : List Nat) (acc : Nat) :
    l.foldl (fun r b => r * 128 + b % 128) acc = acc * 128 ^ l.length + listValLE l.reverse := by
  induction l generalizing acc with
  | nil => simp [listValLE]
  | cons b t ih =>
    simp only [List.foldl_cons, List.reverse_cons, ih, listValLE_append_singleton,
      List.length_cons, List.length_reverse]
    ring

/-- The accumulator of the plain fold never decreases. -/
theorem foldl_plain_le (l : List Nat) (acc : Nat) :
    acc ≤ l.foldl (fun r b => r * 128 + b % 128) acc := by
  induction l generalizing acc with
  | nil => simp
  | cons b t ih =>
    simp only [List.foldl_cons]
    calc acc ≤ acc * 128 + b % 128 := by omega
      _ ≤ _ := ih _

/-- While the plain fold stays below 2^32, the wrapping fold agrees with it. -/
theorem foldl_wrap_eq (l : List Nat) (acc : Nat)
    (h : l.foldl (fun r b => r * 128 + b % 128) acc < 4294967296) :
    l.foldl u32Accum acc = l.foldl (fun r b => r * 128 + b % 128) acc := by
  induction l generalizing acc with
  | nil => simp
  | cons b t ih =>
    simp only [List.foldl_cons] at h ⊢
    have h1 : acc * 128 + b % 128 ≤
        t.foldl (fun r b => r * 128 + b % 128) (acc * 128 + b % 128) :=
      foldl_plain_le t _
    have h2 : u32Accum acc b = acc * 128 + b % 128 := by
      unfold u32Accum
      omega
    rw [h2]
    exact ih _ h

/-- The iterated bytes of an encoded `Vlq` are the stored groups reversed
(the zero padding is not iterated). -/
theorem vlqOfNat_toBytes (n : Nat) : (vlqOfNat n).toBytes = (vlqStored n).reverse := by
  unfold vlqOfNat Vlq.toBytes
  simp [List.take_left]

/-- The stored-value accessor recovers every value up to the cap. -/
theorem vlq_get_ofNat (n : Nat) (h : n ≤ MAX_REPRESENTABLE) : (vlqOfNat n).get = n := by
  have h5 : n < 128 ^ 5 := by
    unfold MAX_REPRESENTABLE at h
    norm_num at h ⊢
    omega
  have hplain : (vlqStored n).reverse.foldl (fun r b => r * 128 + b % 128) 0 = n := by
    rw [foldl_plain_eq]
    simp [listValLE_vlqStored n h5]
  rw [Vlq.get, vlqOfNat_toBytes, foldl_wrap_eq]
  · exact hplain
  · rw [hplain]
    unfold MAX_REPRESENTABLE at h
    omega

/-- Running the parse loop over continuation bytes, a final byte, and a
remainder consumes exactly the encoded bytes and folds up their value. -/
theorem vlqParseLoop_encoded (hs : List Nat) (last : Nat) (extra : List Nat) (acc i : Nat)
    (hhs : ∀ b ∈ hs, 128 ≤ b ∧ b < 256) (hlast : last < 128)
    (hlen : i + hs.length + 1 ≤ 4) :
    vlqParseLoop (hs ++ last :: extra) acc i =
      .ok ((hs ++ [last]).foldl u32Accum acc, extra) := by
  induction hs generalizing acc i with
  | nil =>
    simp only [List.nil_append, List.foldl_cons, List.foldl_nil]
    unfold vlqParseLoop
    rw [if_neg]
    rintro ⟨_, hc⟩
    omega
  | cons b t ih =>
    have hb := hhs b (by simp)
    have hcond : i + 1 < 4 ∧ b / 128 % 2 = 1 := by
      constructor
      · simp only [List.length_cons] at hlen
        omega
      · omega
    simp only [List.cons_append, List.foldl_cons]
    unfold vlqParseLoop
    rw [if_pos hcond]
    refine ih _ (i + 1) (fun x hx => hhs x (by simp [hx])) ?_
    simp only [List.length_cons] at hlen
    omega

/-- Byte-level parse of an encoded `Vlq` followed by any remainder returns
the same `Vlq` and the untouched remainder. -/
theorem vlq_parse_encoded (n : Nat) (h : n ≤ MAX_REPRESENTABLE) (extra : List Nat) :
    Vlq.parse ((vlqOfNat n).toBytes ++ extra) = .ok (vlqOfNat n, extra) := by
  obtain ⟨g, gs, hst, hg, hgs, hlen⟩ := vlqStored_decomp n
  have hlen4 : (vlqStoredGo 4 n).length ≤ 4 := by
    refine vlqStoredGo_length_le 4 n (by norm_num) ?_
    unfold MAX_REPRESENTABLE at h
    norm_num
    omega
  have hsplit : (vlqOfNat n).toBytes ++ extra = gs.reverse ++ (g :: extra) := by
    rw [vlqOfNat_toBytes, hst]
    simp
  have hfold : (gs.reverse ++ [g]).foldl u32Accum 0 = n := by
    have e1 : gs.reverse ++ [g] = (vlqStored n).reverse := by
      rw [hst]
      simp
    rw [e1]
    have := vlq_get_ofNat n h
    rw [Vlq.get, vlqOfNat_toBytes] at this
    exact this
  have hloop : vlqParseLoop (gs.reverse ++ (g :: extra)) 0 0 = .ok (n, extra) := by
    rw [vlqParseLoop_encoded gs.reverse g extra 0 0
      (fun x hx => hgs x (by simpa using hx)) hg ?_, hfold]
    simp only [List.length_reverse, List.length_cons] at hlen ⊢
    omega
  have ht : Vlq.tryFrom n = .ok (vlqOfNat n) := by
    unfold Vlq.tryFrom
    rw [if_neg (not_lt.mpr h)]
  have hne : (gs.reverse ++ (g :: extra)).isEmpty = false := by
    simp
  unfold Vlq.parse
  rw [hsplit, hloop, hne]
  simp [ht]

/-- C2: for every `u32` value `n ≤ 0x0FFFFFFF`, `Vlq::try_from` succeeds, the
encoding is 1–4 bytes, and both the stored-value accessor (`u32::from`) and
the byte-level `Vlq::parse` recover `n` exactly (with empty remainder); for
`n > 0x0FFFFFFF`, `Vlq::try_from` fails with `OverMaxSize`. -/
theorem vlq_roundtrip (n : Nat) (hn : n < 4294967296) :
    (n ≤ 0x0FFFFFFF →
      Vlq.tryFrom n = .ok (vlqOfNat n) ∧
      1 ≤ (vlqOfNat n).toBytes.length ∧ (vlqOfNat n).toBytes.length ≤ 4 ∧
      (vlqOfNat n).get = n ∧
      Vlq.parse ((vlqOfNat n).toBytes) = .ok (vlqOfNat n, [])) ∧
    (0x0FFFFFFF < n → Vlq.tryFrom n = .error .OverMaxSize) := by
  constructor
  · intro h
    have h' : n ≤ MAX_REPRESENTABLE := by
      unfold MAX_REPRESENTABLE
      omega
    obtain ⟨g, gs, hst, _, _, hlen⟩ := vlqStored_decomp n
    have hlen4 : (vlqStoredGo 4 n).length ≤ 4 := by
      refine vlqStoredGo_length_le 4 n (by norm_num) ?_
      unfold MAX_REPRESENTABLE at h'
      norm_num
      omega
    have htb : (vlqOfNat n).toBytes.length = (vlqStoredGo 4 n).length := by
      rw [vlqOfNat_toBytes, List.length_reverse, hst]
      exact hlen
    refine ⟨?_, ?_, ?_, vlq_get_ofNat n h', by simpa using vlq_parse_encoded n h' []⟩
    · unfold Vlq.tryFrom
      rw [if_neg (not_lt.mpr h')]
    · rw [htb, hst] at *
      simp only [List.length_cons] at hlen ⊢
      omega
    · rw [htb]
      exact hlen4
  · intro h
    unfold Vlq.tryFrom
    rw [if_pos]
    unfold MAX_REPRESENTABLE
    omega

/-- Witness for `vlq_roundtrip` at `n = 128` (the smallest two-byte value). -/
theorem vlq_roundtrip_witness :
    Vlq.tryFrom 128 = .ok (vlqOfNat 128) ∧
      1 ≤ (vlqOfNat 128).toBytes.length ∧ (vlqOfNat 128).toBytes.length ≤ 4 ∧
      (vlqOfNat 128).get = 128 ∧
      Vlq.parse ((vlqOfNat 128).toBytes) = .ok (vlqOfNat 128, []) :=
  (vlq_roundtrip 128 (by norm_num)).1 (by norm_num)

/-- A successful run of the VLQ parse loop consumes at least one byte. -/
theorem vlqParseLoop_ok_length (l : List Nat) (acc i r : Nat) (rest : List Nat)
    (h : vlqParseLoop l acc i = .ok (r, rest)) : rest.length < l.length := by
  induction l generalizing acc i with
  | nil => simp [vlqParseLoop] at h
  | cons b t ih =>
    unfold vlqParseLoop at h
    split at h
    · have := ih _ _ h
      simp only [List.length_cons]
      omega
    · simp only [Except.ok.injEq, Prod.mk.injEq] at h
      obtain ⟨-, h2⟩ := h
      subst h2
      simp only [List.length_cons]
      omega

/-- A successful `Vlq::parse` consumes at least one byte. -/
theorem vlq_parse_ok_length (bytes : List Nat) (v : Vlq) (rest : List Nat)
    (h : Vlq.parse bytes = .ok (v, rest)) : rest.length < bytes.length := by
  unfold Vlq.parse at h
  split at h
  · exact absurd h (by simp)
  · rcases hp : vlqParseLoop bytes 0 0 with e | ⟨r, rem⟩ <;> simp only [hp] at h
    · exact absurd h (by simp)
    · rcases ht : Vlq.tryFrom r with e | w <;> simp only [ht] at h
      · exact absurd h (by simp)
      · simp only [Except.ok.injEq, Prod.mk.injEq] at h
        obtain ⟨-, h2⟩ := h
        subst h2
        exact vlqParseLoop_ok_length bytes 0 0 r rem hp

/-- A successful `ModeMessage::parse` consumes exactly one byte. -/
theorem modeMessage_parse_ok_length (bytes : List Nat) (m : Track.ModeMessage)
    (rest : List Nat) (h : Track.ModeMessage.parse bytes = .ok (m, rest)) :
    rest.length < bytes.length := by
  cases bytes with
  | nil => simp [Track.ModeMessage.parse] at h
  | cons b t =>
    unfold Track.ModeMessage.parse at h
    rcases ht : Track.ModeMessage.tryFrom b with e | w <;> simp only [ht] at h
    · exact absurd h (by simp)
    · simp only [Except.ok.injEq, Prod.mk.injEq] at h
      obtain ⟨-, h2⟩ := h
      subst h2
      simp

/-- A successful `VoiceMessageData::parse` consumes at least two bytes (and
never grows the remainder). -/
theorem voiceData_parse_ok_length (bytes : List Nat) (d : Track.VoiceMessageData)
    (rest : List Nat) (h : Track.VoiceMessageData.parse bytes = .ok (d, rest)) :
    rest.length < bytes.length := by
  rcases bytes with _ | ⟨b0, t⟩
  · simp [Track.VoiceMessageData.parse] at h
  · unfold Track.VoiceMessageData.parse at h
    simp only [List.getElem?_cons_zero] at h
    repeat' split at h
    all_goals first
      | (simp only [PResult.ok.injEq, Prod.mk.injEq] at h
         obtain ⟨-, h2⟩ := h
         subst h2
         simp only [List.length_drop, List.length_cons]
         omega)
      | simp at h

/-- A successful `extract_text_event` never grows the remainder. -/
theorem extractTextEvent_ok_length (ctor : List Nat → Track.MetaMessage) (bytes : List Nat)
    (m : Track.MetaMessage) (rest : List Nat)
    (h : Track.extractTextEvent ctor bytes = .ok (m, rest)) : rest.length ≤ bytes.length := by
  unfold Track.extractTextEvent at h
  split at h
  · exact Except.noConfusion h
  · split at h
    · simp only [Except.ok.injEq, Prod.mk.injEq] at h
      obtain ⟨-, h2⟩ := h
      subst h2
      simp only [List.length_drop]
      omega
    · exact Except.noConfusion h

/-- A successful `MetaMessage::parse` never grows the remainder. -/
theorem metaMessage_parse_ok_length (bytes : List Nat) (m : Track.MetaMessage)
    (rest : List Nat) (h : Track.MetaMessage.parse bytes = .ok (m, rest)) :
    rest.length ≤ bytes.length := by
  unfold Track.MetaMessage.parse at h
  split at h
  · exact PResult.noConfusion h
  · exact PResult.noConfusion h
  rename_i bytes0 b0 b1 rest2
  by_cases c1 : b0 = 0 ∧ b1 = 2
  · rw [if_pos c1] at h
    split at h
    · simp only [PResult.ok.injEq, Prod.mk.injEq] at h
      obtain ⟨-, h2⟩ := h
      subst h2
      simp only [List.length_drop, List.length_cons]
      omega
    · exact PResult.noConfusion h
  rw [if_neg c1] at h
  by_cases c2 : b0 = 1
  · rw [if_pos c2] at h
    split at h
    · rename_i r heq
      simp only [PResult.ok.injEq] at h
      subst h
      exact extractTextEvent_ok_length _ _ _ _ heq
    · exact PResult.noConfusion h
  rw [if_neg c2] at h
  by_cases c3 : b0 = 2
  · rw [if_pos c3] at h
    split at h
    · rename_i r heq
      simp only [PResult.ok.injEq] at h
      subst h
      exact extractTextEvent_ok_length _ _ _ _ heq
    · exact PResult.noConfusion h
  rw [if_neg c3] at h
  by_cases c4 : b0 = 3
  · rw [if_pos c4] at h
    split at h
    · rename_i r heq
      simp only [PResult.ok.injEq] at h
      subst h
      exact extractTextEvent_ok_length _ _ _ _ heq
    · exact PResult.noConfusion h
  rw [if_neg c4] at h
  by_cases c5 : b0 = 4
  · rw [if_pos c5] at h
    split at h
    · rename_i r heq
      simp only [PResult.ok.injEq] at h
      subst h
      exact extractTextEvent_ok_length _ _ _ _ heq
    · exact PResult.noConfusion h
  rw [if_neg c5] at h
  by_cases c6 : b0 = 5
  · rw [if_pos c6] at h
    split at h
    · rename_i r heq
      simp only [PResult.ok.injEq] at h
      subst h
      exact extractTextEvent_ok_length _ _ _ _ heq
    · exact PResult.noConfusion h
  rw [if_neg c6] at h
  by_cases c7 : b0 = 6
  · rw [if_pos c7] at h
    split at h
    · rename_i r heq
      simp only [PResult.ok.injEq] at h
      subst h
      exact extractTextEvent_ok_length _ _ _ _ heq
    · exact PResult.noConfusion h
  rw [if_neg c7] at h
  by_cases c8 : b0 = 7
  · rw [if_pos c8] at h
    split at h
    · rename_i r heq
      simp only [PResult.ok.injEq] at h
      subst h
      exact extractTextEvent_ok_length _ _ _ _ heq
    · exact PResult.noConfusion h
  rw [if_neg c8] at h
  by_cases c9 : b0 = 32 ∧ b1 = 1
  · rw [if_pos c9] at h
    split at h
    · simp only [PResult.ok.injEq, Prod.mk.injEq] at h
      obtain ⟨-, h2⟩ := h
      subst h2
      simp only [List.length_drop, List.length_cons]
      omega
    · exact PResult.noConfusion h
  rw [if_neg c9] at h
  by_cases c10 : b0 = 47 ∧ b1 = 0
  · rw [if_pos c10] at h
    simp only [PResult.ok.injEq, Prod.mk.injEq] at h
    obtain ⟨-, h2⟩ := h
    subst h2
    simp only [List.length_drop, List.length_cons]
    omega
  rw [if_neg c10] at h
  by_cases c11 : b0 = 81 ∧ b1 = 3
  · rw [if_pos c11] at h
    split at h
    · split at h
      · simp only [PResult.ok.injEq, Prod.mk.injEq] at h
        obtain ⟨-, h2⟩ := h
        subst h2
        simp only [List.length_drop, List.length_cons]
        omega
      · exact PResult.noConfusion h
    · exact PResult.noConfusion h
  rw [if_neg c11] at h
  by_cases c12 : b0 = 84 ∧ b1 = 5
  · rw [if_pos c12] at h
    split at h
    · simp only [PResult.ok.injEq, Prod.mk.injEq] at h
      obtain ⟨-, h2⟩ := h
      subst h2
      simp only [List.length_drop, List.length_cons]
      omega
    · exact PResult.noConfusion h
  rw [if_neg c12] at h
  by_cases c13 : b0 = 88 ∧ b1 = 4
  · rw [if_pos c13] at h
    split at h
    · simp only [PResult.ok.injEq, Prod.mk.injEq] at h
      obtain ⟨-, h2⟩ := h
      subst h2
      simp only [List.length_drop, List.length_cons]
      omega
    · exact PResult.noConfusion h
  rw [if_neg c13] at h
  by_cases c14 : b0 = 89 ∧ b1 = 2
  · rw [if_pos c14] at h
    split at h
    · split at h
      · exact PResult.noConfusion h
      · split at h
        · exact PResult.noConfusion h
        · simp only [PResult.ok.injEq, Prod.mk.injEq] at h
          obtain ⟨-, h2⟩ := h
          subst h2
          simp only [List.length_drop, List.length_cons]
          omega
    · exact PResult.noConfusion h
  rw [if_neg c14] at h
  by_cases c15 : b0 = 127
  · rw [if_pos c15] at h
    split at h
    · exact PResult.noConfusion h
    · simp only [PResult.ok.injEq, Prod.mk.injEq] at h
      obtain ⟨-, h2⟩ := h
      subst h2
      simp only [List.length_drop, List.length_cons]
      omega
  rw [if_neg c15] at h
  exact PResult.noConfusion h

/-- A successful `Event::parse` consumes at least one byte. -/
theorem event_parse_ok_length (bytes : List Nat) (ev : Track.Event) (rest : List Nat)
    (h : Track.Event.parse bytes = .ok (ev, rest)) : rest.length < bytes.length := by
  rcases bytes with _ | ⟨b0, t⟩
  · simp [Track.Event.parse] at h
  unfold Track.Event.parse at h
  simp only [List.getElem?_cons_zero] at h
  by_cases h240 : b0 = 240
  · rw [if_pos h240] at h
    exact absurd h (by simp)
  rw [if_neg h240] at h
  by_cases h247 : b0 = 247
  · rw [if_pos h247] at h
    exact absurd h (by simp)
  rw [if_neg h247] at h
  by_cases h255 : b0 = 255
  · rw [if_pos h255] at h
    rcases hm : Track.MetaMessage.parse ((b0 :: t).drop 1) with ⟨msg, rem⟩ | e | _ <;>
      simp only [hm] at h
    · simp only [PResult.ok.injEq, Prod.mk.injEq] at h
      obtain ⟨-, h2⟩ := h
      subst h2
      have := metaMessage_parse_ok_length _ _ _ hm
      simp only [List.drop_succ_cons, List.drop_zero] at this
      simp only [List.length_cons]
      omega
    · exact absurd h (by simp)
    · exact absurd h (by simp)
  rw [if_neg h255] at h
  rcases hv : Track.VoiceMessage.tryFrom (b0 / 16 % 16 * 16) with e | vm <;> simp only [hv] at h
  · rcases hmd : Track.ModeMessage.parse (b0 :: t) with e2 | ⟨mm, rem⟩ <;> simp only [hmd] at h
    · exact absurd h (by simp)
    · simp only [PResult.ok.injEq, Prod.mk.injEq] at h
      obtain ⟨-, h2⟩ := h
      subst h2
      exact modeMessage_parse_ok_length _ _ _ hmd
  · rcases hc : Track.Channel.tryFrom (b0 % 16) with e | ch <;> simp only [hc] at h
    · exact absurd h (by simp)
    · rcases hd : Track.VoiceMessageData.parse (b0 :: t) with ⟨data, rem⟩ | e | _ <;>
        simp only [hd] at h
      · split at h
        · simp only [PResult.ok.injEq, Prod.mk.injEq] at h
          obtain ⟨-, h2⟩ := h
          subst h2
          exact voiceData_parse_ok_length _ _ _ hd
        · exact absurd h (by simp)
      · exact absurd h (by simp)
      · exact absurd h (by simp)

/-- A successful `MTrkEvent::parse` consumes at least one byte: the
delta-time VLQ consumes at least one and the event does not grow the rest. -/
theorem mtrkEvent_parse_ok_length (bytes : List Nat) (ev : Track.MTrkEvent)
    (rest : List Nat) (h : Track.MTrkEvent.parse bytes = .ok (ev, rest)) :
    rest.length < bytes.length := by
  unfold Track.MTrkEvent.parse at h
  split at h
  · exact absurd h (by simp)
  · rcases hp : Vlq.parse bytes with e | ⟨dt, rem⟩ <;> simp only [hp] at h
    · exact absurd h (by simp)
    · rcases he : Track.Event.parse rem with ⟨ev2, rem2⟩ | e | _ <;> simp only [he] at h
      · simp only [PResult.ok.injEq, Prod.mk.injEq] at h
        obtain ⟨-, h2⟩ := h
        subst h2
        have l1 := vlq_parse_ok_length bytes dt rem hp
        have l2 := event_parse_ok_length rem ev2 rem2 he
        omega
      · exact absurd h (by simp)
      · exact absurd h (by simp)

/-- With fuel at least the remainder length, the event loop never runs out. -/
theorem parseEventsFuel_isSome (fuel : Nat) (bytes : List Nat) (h : bytes.length ≤ fuel) :
    Track.parseEventsFuel fuel bytes ≠ none := by
  induction fuel generalizing bytes with
  | zero =>
    cases bytes with
    | nil => simp [Track.parseEventsFuel]
    | cons b t => simp at h
  | succ f ih =>
    cases bytes with
    | nil => simp [Track.parseEventsFuel]
    | cons b t =>
      unfold Track.parseEventsFuel
      rcases hp : Track.MTrkEvent.parse (b :: t) with ⟨ev, rem⟩ | e | _ <;> simp only [hp]
      · have hlt := mtrkEvent_parse_ok_length (b :: t) ev rem hp
        have hle : rem.length ≤ f := by
          simp only [List.length_cons] at hlt h
          omega
        have := ih rem hle
        rcases hpe : Track.parseEventsFuel f rem with _ | r
        · exact absurd hpe this
        · simp [hpe]
      · simp
      · simp

/-- C9: track decoding terminates on every finite buffer: with fuel equal to
the buffer length the event loop always completes, because every successful
`MTrkEvent` sub-parse strictly shrinks the remainder. -/
theorem track_decode_terminates (bytes : List Nat) (fuel : Nat) (h : bytes.length ≤ fuel) :
    Track.parseEventsFuel fuel bytes ≠ none ∧
      ∀ ev rest, Track.MTrkEvent.parse bytes = .ok (ev, rest) → rest.length < bytes.length :=
  ⟨parseEventsFuel_isSome fuel bytes h,
    fun ev rest hp => mtrkEvent_parse_ok_length bytes ev rest hp⟩

/-- Witness for `track_decode_terminates`: a 4-byte buffer (delta 0 plus an
end-of-track meta event) with fuel 4. -/
theorem track_decode_terminates_witness :
    Track.parseEventsFuel 4 [0, 255, 47, 0] ≠ none ∧
      ∀ ev rest, Track.MTrkEvent.parse [0, 255, 47, 0] = .ok (ev, rest) →
        rest.length < ([0, 255, 47, 0] : List Nat).length :=
  track_decode_terminates [0, 255, 47, 0] 4 (by decide)

end Mjdi
